import Mathlib

/-!
Shallow embedding of the jigai idle-detection wrapper.

The embedding follows the Python sources:
* `src/jigai/watcher/detector.py` — `strip_ansi`, `Detector` (feed_line,
  check_timeout, _trigger_idle, _redact), `DetectorState`;
* `src/jigai/watcher/patterns.py` — `ToolPattern`, `PatternRegistry.match_any`;
* `src/jigai/watcher/watcher.py` — `Watcher._handle_output` line assembly;
* `src/jigai/notifier/macos.py` — `_sanitize`;
* `src/jigai/server/app.py` — `receive_event`, `list_events`.

Modelling conventions: wall-clock times (`time.time()`) are rationals passed
explicitly as a `now` argument; the `on_idle` callback is modelled as an
event log carried in the detector; compiled regular expressions are
abstracted to their match decision (`re.search` as a `String → Bool`) or,
where a concrete pattern is needed, to literal-string patterns whose
`search`/`sub` semantics coincide with Python's `re` on literal patterns.
Python strings are modelled as `String`/`List Char`; UTF-8 decoding with
replacement in the watcher is modelled at the character level (newlines are
ASCII, so chunk boundaries never split the `"\n"` separator).
-/

namespace Jigai

/-- Python `str` whitespace (the ASCII subset relevant to terminal lines),
as used by `str.strip()`. -/
def isPySpace (c : Char) : Bool :=
  c = ' ' || c = '\t' || c = '\n' || c = '\r' || c = '\x0b' || c = '\x0c'

/-- Python `str.strip()` on a character list: drop whitespace at both ends. -/
def pyStripL (l : List Char) : List Char :=
  ((l.dropWhile isPySpace).reverse.dropWhile isPySpace).reverse

/-- Python `str.strip()`. -/
def pyStrip (s : String) : String := ⟨pyStripL s.data⟩

/-- One pass of Python `str.replace` / `re.sub` for a literal, non-empty
pattern: replace the leftmost-first, non-overlapping occurrences of `pat`
with `repl`.  Structural recursion on a fuel argument; a fuel equal to the
input length always suffices, since each step consumes at least one
character. -/
def litSubF (pat repl : List Char) : Nat → List Char → List Char
  | 0, s => s
  | _ + 1, [] => []
  | f + 1, c :: cs =>
    if !pat.isEmpty && pat.isPrefixOf (c :: cs) then
      repl ++ litSubF pat repl f (List.drop pat.length (c :: cs))
    else
      c :: litSubF pat repl f cs

/-- Python `s.replace(pat, repl)` (equivalently `re.sub` with `pat` a literal
regex), for non-empty `pat`. -/
def pyReplace (s pat repl : String) : String :=
  ⟨litSubF pat.data repl.data s.data.length s.data⟩

/-- Python `re.search` for a literal pattern: `pat` occurs as a contiguous
substring. -/
def litSearchL (pat : List Char) : List Char → Bool
  | [] => pat.isPrefixOf ([] : List Char)
  | c :: cs => pat.isPrefixOf (c :: cs) || litSearchL pat cs

/-! ### ANSI stripping (`detector.py` lines 14–19)

The Python regex is `\x1b\[[0-9;]*[a-zA-Z]|\x1b\].*?\x07|\x1b\[.*?[@-~]`,
applied with `re.sub(…, "")`: scan left to right, at each position try the
three alternatives in order, remove the leftmost match and continue after
it.  `.` does not match a newline; `.*?` is non-greedy, so an OSC
alternative ends at the first BEL and the generic CSI alternative at the
first character in `[@-~]`. -/

/-- Match `.*?\x07` (non-greedy, `.` excludes newline): succeed at the first
BEL, fail on a newline or the end of input; return the rest. -/
def scanToBel : List Char → Option (List Char)
  | [] => none
  | c :: cs =>
    if c = '\x07' then some cs
    else if c = '\n' then none
    else scanToBel cs

/-- Match `.*?[@-~]` (non-greedy, `.` excludes newline): succeed at the first
character in the range `'@'`–`'~'`, fail on a newline or the end of input. -/
def scanToFinal : List Char → Option (List Char)
  | [] => none
  | c :: cs =>
    if '@' ≤ c ∧ c ≤ '~' then some cs
    else if c = '\n' then none
    else scanToFinal cs

/-- Try the ANSI regex at the head of the input; on success return the
suffix after the match.  Alternatives in the Python order:
`ESC [ [0-9;]* letter`, then `ESC ] .*? BEL`, then `ESC [ .*? [@-~]`
(the character classes `[0-9;]` and `[a-zA-Z]` are disjoint, so the greedy
first alternative needs no backtracking). -/
def ansiMatch : List Char → Option (List Char)
  | '\x1b' :: '[' :: rest =>
    (match rest.dropWhile (fun c => c.isDigit || c = ';') with
     | c :: cs => if c.isAlpha then some cs else scanToFinal rest
     | [] => scanToFinal rest)
  | '\x1b' :: ']' :: rest => scanToBel rest
  | _ => none

/-- `re.sub(_ANSI_RE, "", ·)` on a character list: at each position remove a
match of the regex or keep the character.  Fuel-structural; every match
consumes at least two characters, so fuel equal to the input length
suffices. -/
def stripAnsiF : Nat → List Char → List Char
  | 0, l => l
  | _ + 1, [] => []
  | f + 1, c :: cs =>
    match ansiMatch (c :: cs) with
    | some rest => stripAnsiF f rest
    | none => c :: stripAnsiF f cs

/-- `strip_ansi` (`detector.py` line 17): remove ANSI escape codes. -/
def strip_ansi (s : String) : String := ⟨stripAnsiF s.data.length s.data⟩

/-! ### Pattern registry (`patterns.py`) -/

/-- `ToolPattern`: compiled idle patterns for one tool.  A compiled regex is
abstracted to its `re.search` decision on a line. -/
structure ToolPattern where
  name : String
  key : String
  patterns : List (String → Bool)

/-- `ToolPattern.matches`: any of the tool's idle patterns matches. -/
def ToolPattern.matches (t : ToolPattern) (line : String) : Bool :=
  t.patterns.any (fun p => p line)

/-- `PatternRegistry`: insertion-ordered mapping from tool key to
`ToolPattern` (a Python dict preserves insertion order), plus the two timing
tunables. -/
structure PatternRegistry where
  tools : List (String × ToolPattern)
  timeout_seconds : ℚ
  cooldown_seconds : ℚ

/-- The `for key, tool in self.tools.items()` loop of `match_any`: first
tool, in insertion order, with a matching pattern. -/
def matchAnyList : List (String × ToolPattern) → String → Option String
  | [], _ => none
  | (k, t) :: rest, line =>
    if t.matches line then some k else matchAnyList rest line

/-- `PatternRegistry.match_any` (`patterns.py` lines 32–37). -/
def PatternRegistry.match_any (r : PatternRegistry) (line : String) : Option String :=
  matchAnyList r.tools line

/-! ### Redaction patterns -/

/-- A compiled redaction regex, abstracted to its `re.search` decision and
its `re.sub` substitution (`sub repl s` replaces every match in `s` by
`repl`). -/
structure RePattern where
  search : String → Bool
  sub : String → String → String

/-- The literal-pattern instance of `RePattern`: a regex that is a literal,
non-empty string, for which `re.search` is substring occurrence and `re.sub`
replaces leftmost non-overlapping occurrences. -/
def litPattern (pat : String) : RePattern :=
  ⟨fun s => litSearchL pat.data s.data, fun repl s => pyReplace s pat repl⟩

/-! ### Detector (`detector.py`) -/

/-- One invocation of the `on_idle` callback:
`(detection_method, tool_key, idle_seconds, recent)` together with the
wall-clock time `now` at which `_trigger_idle` fired. -/
structure IdleEvt where
  method : String
  tool_key : String
  idle_seconds : ℚ
  recent : List String
  timestamp : ℚ
deriving DecidableEq

/-- `DetectorState` (`detector.py` lines 22–30).  `output_buffer` is a
`deque(maxlen=50)`, modelled as the list of its elements, oldest first. -/
structure DetectorState where
  last_output_time : ℚ
  last_idle_notification : ℚ
  output_buffer : List String
  is_idle : Bool
  detected_tool : Option String
deriving DecidableEq

/-- `Detector`: registry, tool hint, redaction patterns, mutable state, and
the log of `on_idle` callback invocations. -/
structure Detector where
  registry : PatternRegistry
  tool_hint : Option String
  redact_patterns : List RePattern
  state : DetectorState
  events : List IdleEvt

/-- A fresh `Detector` (`DetectorState()` defaults: `last_output_time` is the
construction time, `last_idle_notification = 0.0`, empty buffer, not idle). -/
def mkDetector (reg : PatternRegistry) (hint : Option String)
    (redacts : List RePattern) (t0 : ℚ) : Detector :=
  ⟨reg, hint, redacts, ⟨t0, 0, [], false, none⟩, []⟩

/-- Python `x or "unknown"` on an optional string (`None` and `""` are
falsy). -/
def hintOr : Option String → String
  | some h => if h = "" then "unknown" else h
  | none => "unknown"

/-- Python `list(l)[-n:]`: the last `n` elements. -/
def lastN (n : Nat) (l : List α) : List α := l.drop (l.length - n)

/-- `deque(maxlen=50).append`: append and drop from the front beyond 50. -/
def dequePush50 (buf : List String) (x : String) : List String :=
  let b := buf ++ [x]
  b.drop (b.length - 50)

/-- `Detector._redact` (`detector.py` lines 70–74): apply every compiled
redaction pattern in order, substituting `"[REDACTED]"` for each match. -/
def redactLine (ps : List RePattern) (line : String) : String :=
  ps.foldl (fun l p => p.sub "[REDACTED]" l) line

/-- The cleaned line `feed_line` works on: `strip_ansi(raw_line).strip()`
(`detector.py` line 83). -/
def feedClean (raw : String) : String := pyStrip (strip_ansi raw)

/-- `Detector._trigger_idle` (`detector.py` lines 121–134): the cooldown
gate; on firing, set `is_idle`, stamp `last_idle_notification`, record the
tool, and invoke the callback with
`idle_seconds = now - last_output_time` and the last 10 buffered lines. -/
def Detector.trigger_idle (d : Detector) (method tool_key : String) (now : ℚ) : Detector :=
  if now - d.state.last_idle_notification < d.registry.cooldown_seconds then d
  else
    { d with
      state := { d.state with
        is_idle := true
        last_idle_notification := now
        detected_tool := some tool_key }
      events := d.events ++
        [⟨method, tool_key, now - d.state.last_output_time,
          lastN 10 d.state.output_buffer, now⟩] }

/-- The pattern-matching step of `feed_line` (`detector.py` lines 93–103):
if the tool hint is truthy and a registry key, test that tool first; the
hint is the match if any of its patterns matches; otherwise fall back to
`match_any`. -/
def matchedTool (reg : PatternRegistry) (hint : Option String) (clean : String) :
    Option String :=
  let hinted : Option String :=
    match hint with
    | some h =>
      if h = "" then none
      else
        match reg.tools.lookup h with
        | some tool => if tool.matches clean then some h else none
        | none => none
    | none => none
  match hinted with
  | some h => some h
  | none => reg.match_any clean

/-- The state update of `feed_line` before detection (`detector.py` lines
88–91): push the redacted line into the ring, stamp `last_output_time`,
clear `is_idle`. -/
def Detector.feedUpd (d : Detector) (now : ℚ) (clean : String) : Detector :=
  { d with
    state := { d.state with
      output_buffer := dequePush50 d.state.output_buffer
        (redactLine d.redact_patterns clean)
      last_output_time := now
      is_idle := false } }

/-- `Detector.feed_line` (`detector.py` lines 76–106). -/
def Detector.feed_line (d : Detector) (now : ℚ) (raw : String) : Detector :=
  let clean := feedClean raw
  if clean = "" then d
  else
    let d' := d.feedUpd now clean
    match matchedTool d.registry d.tool_hint clean with
    | some k => d'.trigger_idle "pattern" k now
    | none => d'

/-- `Detector.check_timeout` (`detector.py` lines 108–119). -/
def Detector.check_timeout (d : Detector) (now : ℚ) : Detector :=
  if d.registry.timeout_seconds ≤ now - d.state.last_output_time
      ∧ d.state.is_idle = false then
    d.trigger_idle "timeout" (hintOr d.tool_hint) now
  else d

/-- One external call on the detector, with the wall-clock time at which it
happens. -/
inductive DetOp
  | feed (now : ℚ) (raw : String)
  | checkTimeout (now : ℚ)

/-- Dispatch one call. -/
def Detector.step (d : Detector) : DetOp → Detector
  | .feed now raw => d.feed_line now raw
  | .checkTimeout now => d.check_timeout now

/-- Run a sequence of calls. -/
def Detector.run (d : Detector) (ops : List DetOp) : Detector :=
  ops.foldl Detector.step d

/-- A call that feeds a line which is non-empty after ANSI stripping and
trimming. -/
def DetOp.isNonEmptyFeed : DetOp → Bool
  | .feed _ raw => !(feedClean raw == "")
  | .checkTimeout _ => false

/-! ### Watcher line assembly (`watcher.py` lines 76–92)

`_handle_output` decodes a chunk (UTF-8 with replacement — modelled at the
character level, which is exact for the `"\n"` separator since newlines are
single ASCII bytes), appends it to `_line_buffer`, feeds every
newline-terminated prefix as a completed line, and finally, if the trimmed
remainder is non-empty, feeds the remainder too without removing it from
the buffer. -/

/-- The `while "\n" in buffer: line, buffer = buffer.split("\n", 1)` loop:
the segments before each newline, in order, and the remainder after the
last newline. -/
def splitLoop : List Char → List (List Char) × List Char
  | [] => ([], [])
  | c :: cs =>
    let p := splitLoop cs
    if c = '\n' then ([] :: p.1, p.2)
    else
      match p.1 with
      | [] => ([], c :: p.2)
      | l :: ls => ((c :: l) :: ls, p.2)

/-- Python `S.split("\n")`: every segment, the unterminated last one
included (`"".split("\n") == [""]`). -/
def pySplitAll : List Char → List (List Char)
  | [] => [[]]
  | c :: cs =>
    let ls := pySplitAll cs
    if c = '\n' then [] :: ls
    else
      match ls with
      | l :: ls' => (c :: l) :: ls'
      | [] => [[c]]

/-- The observable outcome of one `_handle_output` call: the completed lines
fed, the optional trailing-fragment feed, and the buffer afterwards. -/
structure ChunkOut where
  completed : List (List Char)
  frag : Option (List Char)
  buf : List Char
deriving DecidableEq

/-- `Watcher._handle_output` on one chunk. -/
def handleOutput (buf text : List Char) : ChunkOut :=
  let p := splitLoop (buf ++ text)
  ⟨p.1, if pyStripL p.2 = [] then none else some p.2, p.2⟩

/-- The `_line_buffer` after a sequence of chunks. -/
def runChunksBuf (buf : List Char) (cs : List (List Char)) : List Char :=
  cs.foldl (fun b c => (handleOutput b c).buf) buf

/-- The per-chunk outcomes of a sequence of chunks. -/
def runChunksOuts (buf : List Char) : List (List Char) → List ChunkOut
  | [] => []
  | c :: cs =>
    let o := handleOutput buf c
    o :: runChunksOuts o.buf cs

/-- Concatenation of a chunk sequence: the byte stream it partitions. -/
def sconcat : List (List Char) → List Char
  | [] => []
  | c :: cs => c ++ sconcat cs

/-- All completed lines fed across a sequence of chunks, in order. -/
def outsCompleted : List ChunkOut → List (List Char)
  | [] => []
  | o :: os => o.completed ++ outsCompleted os

/-! ### Notifier (`notifier/macos.py` lines 116–119) -/

/-- `_sanitize`: escape backslashes, then double quotes, then replace
newlines with a visible glyph. -/
def _sanitize (text : String) : String :=
  pyReplace (pyReplace (pyReplace text "\\" "\\\\") "\"" "\\\"") "\n" " ⏎ "

/-! ### Hub server (`server/app.py`) -/

/-- The `IdleEventRequest` body of `POST /api/events`. -/
structure IdleEventRequest where
  session_id : String
  tool_name : String
  working_dir : String
  last_output : String
  idle_seconds : ℚ
  detection_method : String
deriving DecidableEq

/-- The `event_data` dict built by `receive_event` (its `"type"` field is
the constant `"idle_detected"`; `timestamp` is the current UTC time,
modelled as a rational parameter). -/
structure EventRec where
  etype : String
  session_id : String
  tool_name : String
  working_dir : String
  last_output : String
  idle_seconds : ℚ
  detection_method : String
  timestamp : ℚ
deriving DecidableEq

/-- The session record written by `receive_event` (`app.py` lines 106–112). -/
structure SessionRec where
  session_id : String
  tool_name : String
  working_dir : String
  status : String
  last_event : Option EventRec
deriving DecidableEq

/-- The hub's process-global state relevant to `/api/events`: the session
dict (insertion-ordered) and the event history. -/
structure HubState where
  sessions : List (String × SessionRec)
  event_history : List EventRec
deriving DecidableEq

/-- `MAX_HISTORY` (`app.py` line 24). -/
def MAX_HISTORY : Nat := 100

/-- Python dict assignment `d[k] = v`: update in place if the key exists
(keeping its position), else append. -/
def dictSet (l : List (String × α)) (k : String) (v : α) : List (String × α) :=
  if l.any (fun kv => kv.1 = k) then
    l.map (fun kv => if kv.1 = k then (k, v) else kv)
  else l ++ [(k, v)]

/-- The `event_data` dict of `receive_event` (`app.py` lines 94–103). -/
def mkEventData (e : IdleEventRequest) (ts : ℚ) : EventRec :=
  ⟨"idle_detected", e.session_id, e.tool_name, e.working_dir, e.last_output,
    e.idle_seconds, e.detection_method, ts⟩

/-- `receive_event` (`app.py` lines 91–122): update the session record,
append to the bounded history, return `{"status": "ok",
"clients_notified": manager.client_count}`.  The broadcast is a side effect
on subscribers and does not touch this state. -/
def receive_event (st : HubState) (e : IdleEventRequest) (ts : ℚ) (clients : Nat) :
    HubState × String × Nat :=
  let ed := mkEventData e ts
  let sessions' := dictSet st.sessions e.session_id
    ⟨e.session_id, e.tool_name, e.working_dir, "idle", some ed⟩
  let h := st.event_history ++ [ed]
  let h' := if MAX_HISTORY < h.length then h.drop 1 else h
  (⟨sessions', h'⟩, ("ok", clients))

/-- Python `l[-k:]` for an `int` k: for `k > 0` start at `max(0, len - k)`;
for `k ≤ 0` the start index is the non-negative `-k`, clamped to the
length.  In particular `l[-0:]` is the whole list. -/
def pyTail (l : List α) (k : Int) : List α :=
  if 0 < k then l.drop (l.length - k.toNat) else l.drop (-k).toNat

/-- `list_events` (`app.py` lines 74–77): `event_history[-limit:]`. -/
def list_events (st : HubState) (limit : Int) : List EventRec :=
  pyTail st.event_history limit

/-- `GET /api/events` without a `limit` parameter: the FastAPI default
`limit = 20`. -/
def list_events_default (st : HubState) : List EventRec := list_events st 20

/-! ### Concrete instances used by witnesses and counterexamples

The tools carry literal idle patterns (a literal string is a valid compiled
regex, with substring-occurrence search semantics). -/

/-- A tool whose idle pattern is the literal regex `A>`. -/
def toolA : ToolPattern := ⟨"Tool A", "a", [(litPattern "A>").search]⟩

/-- A tool whose idle pattern is the literal regex `B>`. -/
def toolB : ToolPattern := ⟨"Tool B", "b", [(litPattern "B>").search]⟩

/-- A two-tool registry, insertion order `a` then `b`. -/
def reg5 : PatternRegistry := ⟨[("a", toolA), ("b", toolB)], 30, 5⟩

/-- A tool whose idle pattern is the literal regex `>>`. -/
def claudeTool : ToolPattern :=
  ⟨"Claude Code", "claude_code", [(litPattern ">>").search]⟩

/-- Registry with one tool, `timeout_seconds = 30`, `cooldown_seconds = 5`. -/
def regCd : PatternRegistry := ⟨[("claude_code", claudeTool)], 30, 5⟩

/-- Registry with one tool, `timeout_seconds = 1`, `cooldown_seconds = 0`
(the timeout scenario of the spec). -/
def regC6 : PatternRegistry := ⟨[("claude_code", claudeTool)], 1, 0⟩

/-- Registry with no tools. -/
def regEmpty : PatternRegistry := ⟨[], 30, 5⟩

/-- A tool whose idle pattern is the literal regex `0m`. -/
def zeroMTool : ToolPattern := ⟨"Zero", "zero_m", [(litPattern "0m").search]⟩

/-- Registry holding `zeroMTool`. -/
def regZeroM : PatternRegistry := ⟨[("zero_m", zeroMTool)], 30, 5⟩

/-- Fresh detector on `regCd` with a tool hint. -/
def cDet : Detector := mkDetector regCd (some "claude_code") [] 0

/-- Fresh detector on `regCd` without a hint. -/
def c2det : Detector := mkDetector regCd none [] 0

/-- Fresh detector with no tools and the literal redaction pattern `ED`. -/
def cd4 : Detector := mkDetector regEmpty none [litPattern "ED"] 0

/-- Fresh detector on `regC6` for the timeout scenario. -/
def c6det : Detector := mkDetector regC6 (some "claude_code") [] 10

/-- The timeout scenario: one feed, then three `check_timeout` calls after
more than `timeout_seconds` of silence. -/
def c6ops : List DetOp :=
  [.feed 10 "Working on it", .checkTimeout 12, .checkTimeout 13, .checkTimeout 14]

/-- A line on which `strip_ansi` is not idempotent: removing the inner
`ESC [ A` sequence glues the leading `ESC` to the trailing `[0m`, forming a
new escape sequence. -/
def c3L : String := "\x1b\x1b[A[0m"

/-- A concrete stored event. -/
def c9ev : EventRec := ⟨"idle_detected", "s1", "Claude Code", "/w", "", 0, "pattern", 1⟩

/-- Hub state with a one-event history. -/
def c9st0 : HubState := ⟨[], [c9ev]⟩

/-- A concrete `POST /api/events` body. -/
def c9req : IdleEventRequest := ⟨"s2", "Codex", "/x", "done", 3, "timeout"⟩

/-- A detector whose state is already idle. -/
def idleDet : Detector := ⟨regCd, none, [], ⟨0, 0, [], true, none⟩, []⟩

/-- Hub state whose history is exactly full (100 entries). -/
def c9full : HubState := ⟨[], List.replicate 100 c9ev⟩

/-- Hub state with an empty history. -/
def c9empty : HubState := ⟨[], []⟩

/-! ### Specification predicates -/

/-- The cooldown invariant: successive logged idle events are at least `c`
apart, and the last logged event's timestamp is at most
`last_idle_notification`. -/
def GapInv (c : ℚ) (d : Detector) : Prop :=
  List.Chain' (fun a b => c ≤ b.timestamp - a.timestamp) d.events
  ∧ ∀ e ∈ d.events.getLast?, e.timestamp ≤ d.state.last_idle_notification

/-- Some call in the sequence emitted an idle event, and no later call fed a
line that is non-empty after ANSI-stripping and trimming. -/
def FiredSuffix (d₀ : Detector) (qs : List DetOp) : Prop :=
  ∃ a o b, qs = a ++ o :: b
    ∧ (d₀.run a).events.length < (d₀.run (a ++ [o])).events.length
    ∧ ∀ x ∈ b, x.isNonEmptyFeed = false

/-- Every logged event of the pattern path reports `idle_seconds = 0`. -/
def PatternZero (d : Detector) : Prop :=
  ∀ e ∈ d.events, e.method = "pattern" → e.idle_seconds = 0

/-! ## Structural lemmas about the detector operations -/

theorem trigger_idle_block (d : Detector) (m k : String) (now : ℚ)
    (h : now - d.state.last_idle_notification < d.registry.cooldown_seconds) :
    d.trigger_idle m k now = d := by
  simp [Detector.trigger_idle, h]

theorem trigger_idle_fire (d : Detector) (m k : String) (now : ℚ)
    (h : d.registry.cooldown_seconds ≤ now - d.state.last_idle_notification) :
    d.trigger_idle m k now =
      { d with
        state := { d.state with
          is_idle := true
          last_idle_notification := now
          detected_tool := some k }
        events := d.events ++
          [⟨m, k, now - d.state.last_output_time,
            lastN 10 d.state.output_buffer, now⟩] } := by
  simp [Detector.trigger_idle, not_lt.2 h]

theorem trigger_idle_preserves (d : Detector) (m k : String) (now : ℚ) :
    (d.trigger_idle m k now).registry = d.registry
    ∧ (d.trigger_idle m k now).tool_hint = d.tool_hint
    ∧ (d.trigger_idle m k now).redact_patterns = d.redact_patterns
    ∧ (d.trigger_idle m k now).state.output_buffer = d.state.output_buffer
    ∧ (d.trigger_idle m k now).state.last_output_time = d.state.last_output_time := by
  unfold Detector.trigger_idle
  split <;> simp

theorem trigger_idle_events (d : Detector) (m k : String) (now : ℚ) :
    (d.trigger_idle m k now).events = d.events
    ∨ (d.trigger_idle m k now).events = d.events ++
        [⟨m, k, now - d.state.last_output_time,
          lastN 10 d.state.output_buffer, now⟩] := by
  unfold Detector.trigger_idle
  split
  · exact Or.inl rfl
  · exact Or.inr rfl

theorem feed_line_empty (d : Detector) (now : ℚ) (raw : String)
    (h : feedClean raw = "") : d.feed_line now raw = d := by
  simp [Detector.feed_line, h]

theorem feed_line_nonempty (d : Detector) (now : ℚ) (raw : String)
    (h : feedClean raw ≠ "") :
    d.feed_line now raw =
      match matchedTool d.registry d.tool_hint (feedClean raw) with
      | some k => (d.feedUpd now (feedClean raw)).trigger_idle "pattern" k now
      | none => d.feedUpd now (feedClean raw) := by
  simp [Detector.feed_line, h]

theorem feed_line_matched (d : Detector) (now : ℚ) (raw k : String)
    (h : feedClean raw ≠ "")
    (hm : matchedTool d.registry d.tool_hint (feedClean raw) = some k) :
    d.feed_line now raw = (d.feedUpd now (feedClean raw)).trigger_idle "pattern" k now := by
  rw [feed_line_nonempty _ _ _ h, hm]

theorem feed_line_unmatched (d : Detector) (now : ℚ) (raw : String)
    (h : feedClean raw ≠ "")
    (hm : matchedTool d.registry d.tool_hint (feedClean raw) = none) :
    d.feed_line now raw = d.feedUpd now (feedClean raw) := by
  rw [feed_line_nonempty _ _ _ h, hm]

theorem step_preserves (d : Detector) (op : DetOp) :
    (d.step op).registry = d.registry
    ∧ (d.step op).tool_hint = d.tool_hint
    ∧ (d.step op).redact_patterns = d.redact_patterns := by
  cases op with
  | feed now raw =>
    by_cases h : feedClean raw = ""
    · simp [Detector.step, feed_line_empty _ _ _ h]
    · rw [Detector.step, feed_line_nonempty _ _ _ h]
      rcases hm : matchedTool d.registry d.tool_hint (feedClean raw) with _ | k
      · simp [Detector.feedUpd]
      · have h1 := trigger_idle_preserves (d.feedUpd now (feedClean raw)) "pattern" k now
        simp only []
        exact ⟨h1.1, h1.2.1, h1.2.2.1⟩
  | checkTimeout now =>
    rw [Detector.step, Detector.check_timeout]
    split
    · have h1 := trigger_idle_preserves d "timeout" (hintOr d.tool_hint) now
      exact ⟨h1.1, h1.2.1, h1.2.2.1⟩
    · exact ⟨rfl, rfl, rfl⟩

theorem run_append (d : Detector) (l₁ l₂ : List DetOp) :
    d.run (l₁ ++ l₂) = (d.run l₁).run l₂ := by
  simp [Detector.run, List.foldl_append]

theorem run_preserves (d : Detector) (ops : List DetOp) :
    (d.run ops).registry = d.registry
    ∧ (d.run ops).tool_hint = d.tool_hint
    ∧ (d.run ops).redact_patterns = d.redact_patterns := by
  induction ops generalizing d with
  | nil => exact ⟨rfl, rfl, rfl⟩
  | cons op rest ih =>
    have hstep := step_preserves d op
    have hrun := ih (d.step op)
    have hr : d.run (op :: rest) = (d.step op).run rest := rfl
    rw [hr]
    exact ⟨hrun.1.trans hstep.1, hrun.2.1.trans hstep.2.1, hrun.2.2.trans hstep.2.2⟩

theorem step_events_shape (d : Detector) (op : DetOp) :
    (d.step op).events = d.events ∨ ∃ e, (d.step op).events = d.events ++ [e] := by
  cases op with
  | feed now raw =>
    by_cases h : feedClean raw = ""
    · rw [Detector.step, feed_line_empty _ _ _ h]
      exact Or.inl rfl
    · rw [Detector.step, feed_line_nonempty _ _ _ h]
      rcases hm : matchedTool d.registry d.tool_hint (feedClean raw) with _ | k
      · exact Or.inl rfl
      · simp only []
        rcases trigger_idle_events (d.feedUpd now (feedClean raw)) "pattern" k now with
          he | he
        · exact Or.inl he
        · exact Or.inr ⟨_, he⟩
  | checkTimeout now =>
    rw [Detector.step, Detector.check_timeout]
    split
    · rcases trigger_idle_events d "timeout" (hintOr d.tool_hint) now with he | he
      · exact Or.inl he
      · exact Or.inr ⟨_, he⟩
    · exact Or.inl rfl

theorem step_events_mono (d : Detector) (op : DetOp) :
    d.events.length ≤ (d.step op).events.length := by
  rcases step_events_shape d op with h | ⟨e, h⟩ <;> simp [h]

/-! ## Lemmas about `is_idle` along a trace -/

theorem notNEF_clean_empty (now : ℚ) (raw : String)
    (hop : (DetOp.feed now raw).isNonEmptyFeed = false) : feedClean raw = "" := by
  simpa [DetOp.isNonEmptyFeed] using hop

theorem step_idle_frozen (d : Detector) (op : DetOp) (hid : d.state.is_idle = true)
    (hop : op.isNonEmptyFeed = false) : d.step op = d := by
  cases op with
  | feed now raw =>
    exact feed_line_empty d now raw (notNEF_clean_empty now raw hop)
  | checkTimeout now =>
    rw [Detector.step, Detector.check_timeout, if_neg]
    intro hc
    rw [hid] at hc
    exact absurd hc.2 (by simp)

theorem step_fire_idle (d : Detector) (op : DetOp)
    (h : d.events.length < (d.step op).events.length) :
    (d.step op).state.is_idle = true := by
  cases op with
  | feed now raw =>
    by_cases hcl : feedClean raw = ""
    · rw [Detector.step, feed_line_empty _ _ _ hcl] at h
      exact absurd h (lt_irrefl _)
    · rcases hm : matchedTool d.registry d.tool_hint (feedClean raw) with _ | k
      · rw [Detector.step, feed_line_unmatched _ _ _ hcl hm] at h
        exact absurd h (lt_irrefl _)
      · rw [Detector.step, feed_line_matched _ _ _ _ hcl hm] at h ⊢
        by_cases hg : now - (d.feedUpd now (feedClean raw)).state.last_idle_notification
            < (d.feedUpd now (feedClean raw)).registry.cooldown_seconds
        · rw [trigger_idle_block _ _ _ _ hg] at h
          exact absurd h (lt_irrefl _)
        · rw [trigger_idle_fire _ _ _ _ (not_lt.1 hg)]
  | checkTimeout now =>
    rw [Detector.step, Detector.check_timeout] at h ⊢
    by_cases hc : d.registry.timeout_seconds ≤ now - d.state.last_output_time
        ∧ d.state.is_idle = false
    · rw [if_pos hc] at h ⊢
      by_cases hg : now - d.state.last_idle_notification < d.registry.cooldown_seconds
      · rw [trigger_idle_block _ _ _ _ hg] at h
        exact absurd h (lt_irrefl _)
      · rw [trigger_idle_fire _ _ _ _ (not_lt.1 hg)]
    · rw [if_neg hc] at h
      exact absurd h (lt_irrefl _)

theorem feed_nofire_idle (d : Detector) (now : ℚ) (raw : String)
    (hne : feedClean raw ≠ "")
    (h : (d.feed_line now raw).events.length = d.events.length) :
    (d.feed_line now raw).state.is_idle = false := by
  rcases hm : matchedTool d.registry d.tool_hint (feedClean raw) with _ | k
  · rw [feed_line_unmatched _ _ _ hne hm]
    rfl
  · rw [feed_line_matched _ _ _ _ hne hm] at h ⊢
    by_cases hg : now - (d.feedUpd now (feedClean raw)).state.last_idle_notification
        < (d.feedUpd now (feedClean raw)).registry.cooldown_seconds
    · rw [trigger_idle_block _ _ _ _ hg]
      rfl
    · rw [trigger_idle_fire _ _ _ _ (not_lt.1 hg)] at h
      simp [Detector.feedUpd] at h

theorem step_nofire_frozen (d : Detector) (op : DetOp)
    (hop : op.isNonEmptyFeed = false)
    (h : (d.step op).events.length = d.events.length) : d.step op = d := by
  cases op with
  | feed now raw =>
    exact feed_line_empty d now raw (notNEF_clean_empty now raw hop)
  | checkTimeout now =>
    rw [Detector.step, Detector.check_timeout] at h ⊢
    by_cases hc : d.registry.timeout_seconds ≤ now - d.state.last_output_time
        ∧ d.state.is_idle = false
    · rw [if_pos hc] at h ⊢
      by_cases hg : now - d.state.last_idle_notification < d.registry.cooldown_seconds
      · exact trigger_idle_block _ _ _ _ hg
      · rw [trigger_idle_fire _ _ _ _ (not_lt.1 hg)] at h
        simp at h
    · exact if_neg hc

theorem run_single (d : Detector) (op : DetOp) : d.run [op] = d.step op := rfl

theorem append_singleton_cases {α : Type} (qs : List α) (op : α) (a : List α)
    (o : α) (b : List α) (h : qs ++ [op] = a ++ o :: b) :
    (b = [] ∧ a = qs ∧ o = op) ∨ ∃ b', b = b' ++ [op] ∧ qs = a ++ o :: b' := by
  induction b using List.reverseRecOn with
  | nil =>
    have h2 : qs ++ [op] = a ++ [o] := h
    have := List.append_inj' h2 rfl
    exact Or.inl ⟨rfl, this.1.symm, by simpa using this.2.symm⟩
  | append_singleton b' x _ =>
    have h2 : qs ++ [op] = (a ++ o :: b') ++ [x] := by
      rw [h]
      simp
    have := List.append_inj' h2 rfl
    refine Or.inr ⟨b', ?_, this.1⟩
    have hx : op = x := by simpa using this.2
    rw [hx]

theorem idle_iff (d₀ : Detector) (h0 : d₀.state.is_idle = false) (qs : List DetOp) :
    (d₀.run qs).state.is_idle = true ↔ FiredSuffix d₀ qs := by
  induction qs using List.reverseRecOn with
  | nil =>
    constructor
    · intro h
      rw [show d₀.run [] = d₀ from rfl, h0] at h
      exact absurd h (by simp)
    · rintro ⟨a, o, b, habs, -, -⟩
      exact absurd habs (by simp)
  | append_singleton qs op ih =>
    rw [run_append, run_single]
    by_cases hf : (d₀.run qs).events.length < ((d₀.run qs).step op).events.length
    · have hidle := step_fire_idle (d₀.run qs) op hf
      constructor
      · intro _
        exact ⟨qs, op, [], rfl, by rw [run_append, run_single]; exact hf, by simp⟩
      · intro _
        exact hidle
    · have heq : ((d₀.run qs).step op).events.length = (d₀.run qs).events.length := by
        have := step_events_mono (d₀.run qs) op
        omega
      by_cases hnef : op.isNonEmptyFeed = true
      · cases op with
        | checkTimeout now => simp [DetOp.isNonEmptyFeed] at hnef
        | feed now raw =>
          have hne : feedClean raw ≠ "" := by
            simpa [DetOp.isNonEmptyFeed] using hnef
          have hfalse : ((d₀.run qs).step (DetOp.feed now raw)).state.is_idle = false :=
            feed_nofire_idle (d₀.run qs) now raw hne heq
          constructor
          · intro h
            rw [hfalse] at h
            exact absurd h (by simp)
          · rintro ⟨a, o, b, hsplit, hfire, hb⟩
            exfalso
            rcases append_singleton_cases qs (DetOp.feed now raw) a o b hsplit with
              ⟨hb0, ha, ho⟩ | ⟨b', hb', hqs⟩
            · rw [ha, ho, run_append, run_single] at hfire
              omega
            · have hmem : DetOp.feed now raw ∈ b := by
                rw [hb']
                simp
              have := hb _ hmem
              rw [this] at hnef
              exact absurd hnef (by simp)
      · have hfz : (d₀.run qs).step op = (d₀.run qs) :=
          step_nofire_frozen (d₀.run qs) op (by simpa using hnef) heq
        rw [hfz, ih]
        constructor
        · rintro ⟨a, o, b, hsplit, hfire, hb⟩
          refine ⟨a, o, b ++ [op], by rw [hsplit]; simp, hfire, ?_⟩
          intro x hx
          rcases List.mem_append.1 hx with h1 | h1
          · exact hb x h1
          · have hx2 : x = op := by simpa using h1
            rw [hx2]
            simpa using hnef
        · rintro ⟨a, o, b, hsplit, hfire, hb⟩
          rcases append_singleton_cases qs op a o b hsplit with
            ⟨hb0, ha, ho⟩ | ⟨b', hb', hqs⟩
          · exfalso
            rw [ha, ho, run_append, run_single] at hfire
            omega
          · exact ⟨a, o, b', hqs, hfire,
              fun x hx => hb x (by rw [hb']; exact List.mem_append_left _ hx)⟩

/-! ## Lemmas about the cooldown invariant -/

theorem gapinv_trigger (c : ℚ) (d : Detector) (m k : String) (now : ℚ)
    (hc : d.registry.cooldown_seconds = c) (h : GapInv c d) :
    GapInv c (d.trigger_idle m k now) := by
  by_cases hg : now - d.state.last_idle_notification < d.registry.cooldown_seconds
  · rw [trigger_idle_block _ _ _ _ hg]
    exact h
  · have hge : c ≤ now - d.state.last_idle_notification := by
      rw [← hc]
      exact not_lt.1 hg
    rw [trigger_idle_fire _ _ _ _ (not_lt.1 hg)]
    constructor
    · refine List.chain'_append.2 ⟨h.1, List.chain'_singleton _, ?_⟩
      intro x hx y hy
      have hy2 : y = (⟨m, k, now - d.state.last_output_time,
          lastN 10 d.state.output_buffer, now⟩ : IdleEvt) := by
        simp at hy
        exact hy.symm
      have hx2 := h.2 x hx
      rw [hy2]
      show c ≤ now - x.timestamp
      linarith
    · intro e he
      rw [List.getLast?_concat] at he
      have he2 : e = (⟨m, k, now - d.state.last_output_time,
          lastN 10 d.state.output_buffer, now⟩ : IdleEvt) := by
        simp at he
        exact he.symm
      rw [he2]

theorem gapinv_feedUpd (c : ℚ) (d : Detector) (now : ℚ) (clean : String)
    (h : GapInv c d) : GapInv c (d.feedUpd now clean) := h

theorem gapinv_step (c : ℚ) (d : Detector) (op : DetOp)
    (hc : d.registry.cooldown_seconds = c) (h : GapInv c d) :
    GapInv c (d.step op) := by
  cases op with
  | feed now raw =>
    by_cases hcl : feedClean raw = ""
    · rw [Detector.step, feed_line_empty _ _ _ hcl]
      exact h
    · rcases hm : matchedTool d.registry d.tool_hint (feedClean raw) with _ | k
      · rw [Detector.step, feed_line_unmatched _ _ _ hcl hm]
        exact gapinv_feedUpd c d now _ h
      · rw [Detector.step, feed_line_matched _ _ _ _ hcl hm]
        exact gapinv_trigger c _ _ _ _ hc (gapinv_feedUpd c d now _ h)
  | checkTimeout now =>
    rw [Detector.step, Detector.check_timeout]
    split
    · exact gapinv_trigger c d _ _ _ hc h
    · exact h

theorem gapinv_run (c : ℚ) (d : Detector) (ops : List DetOp)
    (hc : d.registry.cooldown_seconds = c) (h : GapInv c d) :
    GapInv c (d.run ops) := by
  induction ops generalizing d with
  | nil => exact h
  | cons op rest ih =>
    have hr : d.run (op :: rest) = (d.step op).run rest := rfl
    rw [hr]
    exact ih (d.step op) (by rw [(step_preserves d op).1, hc]) (gapinv_step c d op hc h)

/-! ## Lemmas about pattern-path events -/

theorem patternzero_step (d : Detector) (op : DetOp) (h : PatternZero d) :
    PatternZero (d.step op) := by
  cases op with
  | feed now raw =>
    by_cases hcl : feedClean raw = ""
    · rw [Detector.step, feed_line_empty _ _ _ hcl]
      exact h
    · rcases hm : matchedTool d.registry d.tool_hint (feedClean raw) with _ | k
      · rw [Detector.step, feed_line_unmatched _ _ _ hcl hm]
        exact h
      · rw [Detector.step, feed_line_matched _ _ _ _ hcl hm]
        by_cases hg : now - (d.feedUpd now (feedClean raw)).state.last_idle_notification
            < (d.feedUpd now (feedClean raw)).registry.cooldown_seconds
        · rw [trigger_idle_block _ _ _ _ hg]
          exact h
        · rw [trigger_idle_fire _ _ _ _ (not_lt.1 hg)]
          intro e he hp
          rcases List.mem_append.1 he with h1 | h1
          · exact h e h1 hp
          · have he2 : e = (⟨"pattern", k,
                now - (d.feedUpd now (feedClean raw)).state.last_output_time,
                lastN 10 (d.feedUpd now (feedClean raw)).state.output_buffer, now⟩
                : IdleEvt) := by
              simpa using h1
            rw [he2]
            show now - (d.feedUpd now (feedClean raw)).state.last_output_time = 0
            show now - now = 0
            ring
  | checkTimeout now =>
    rw [Detector.step, Detector.check_timeout]
    split
    · by_cases hg : now - d.state.last_idle_notification < d.registry.cooldown_seconds
      · rw [trigger_idle_block _ _ _ _ hg]
        exact h
      · rw [trigger_idle_fire _ _ _ _ (not_lt.1 hg)]
        intro e he hp
        rcases List.mem_append.1 he with h1 | h1
        · exact h e h1 hp
        · have he2 : e = (⟨"timeout", hintOr d.tool_hint,
              now - d.state.last_output_time,
              lastN 10 d.state.output_buffer, now⟩ : IdleEvt) := by
            simpa using h1
          rw [he2] at hp
          exact absurd hp (by simp)
    · exact h

theorem patternzero_run (d : Detector) (ops : List DetOp) (h : PatternZero d) :
    PatternZero (d.run ops) := by
  induction ops generalizing d with
  | nil => exact h
  | cons op rest ih =>
    exact ih (d.step op) (patternzero_step d op h)

/-! ## Lemmas about `match_any` -/

theorem matchAnyList_none_iff (ts : List (String × ToolPattern)) (line : String) :
    matchAnyList ts line = none ↔ ∀ kt ∈ ts, kt.2.matches line = false := by
  induction ts with
  | nil => simp [matchAnyList]
  | cons kt rest ih =>
    obtain ⟨k, t⟩ := kt
    by_cases hm : t.matches line = true
    · simp [matchAnyList, hm]
    · have hm' : t.matches line = false := by
        simpa using hm
      simp [matchAnyList, hm', ih]

theorem matchAnyList_some (ts : List (String × ToolPattern)) (line k : String)
    (h : matchAnyList ts line = some k) :
    ∃ pre t post, ts = pre ++ (k, t) :: post ∧ t.matches line = true
      ∧ ∀ kt ∈ pre, kt.2.matches line = false := by
  induction ts with
  | nil => simp [matchAnyList] at h
  | cons kt rest ih =>
    obtain ⟨k1, t1⟩ := kt
    by_cases hm : t1.matches line = true
    · rw [show matchAnyList ((k1, t1) :: rest) line
          = if t1.matches line then some k1 else matchAnyList rest line from rfl,
        if_pos hm] at h
      have hk : k1 = k := by simpa using h
      subst hk
      exact ⟨[], t1, rest, rfl, hm, by simp⟩
    · rw [show matchAnyList ((k1, t1) :: rest) line
          = if t1.matches line then some k1 else matchAnyList rest line from rfl,
        if_neg hm] at h
      obtain ⟨pre, t, post, hts, hmt, hpre⟩ := ih h
      refine ⟨(k1, t1) :: pre, t, post, by rw [hts]; rfl, hmt, ?_⟩
      intro kt hkt
      rcases List.mem_cons.1 hkt with h1 | h1
      · rw [h1]
        simpa using hm
      · exact hpre kt h1

/-! ## Lemmas about dict assignment and lookup -/

theorem lookup_cons_ne {α : Type} (k k1 : String) (v1 : α) (rest : List (String × α))
    (h : ¬(k = k1)) : ((k1, v1) :: rest).lookup k = rest.lookup k := by
  rw [List.lookup_cons]
  have hb : (k == k1) = false := by simpa using h
  rw [hb]

theorem lookup_map_set {α : Type} (l : List (String × α)) (k : String) (v : α)
    (ha : l.any (fun kv => kv.1 = k) = true) :
    (l.map (fun kv => if kv.1 = k then (k, v) else kv)).lookup k = some v := by
  induction l with
  | nil => simp at ha
  | cons kv rest ih =>
    obtain ⟨k1, v1⟩ := kv
    by_cases hk : k1 = k
    · rw [List.map_cons, if_pos hk]
      exact List.lookup_cons_self
    · have ha' : rest.any (fun kv => kv.1 = k) = true := by
        simpa [hk] using ha
      rw [List.map_cons, if_neg hk, lookup_cons_ne k k1 v1 _ (fun hh => hk hh.symm)]
      exact ih ha'

theorem lookup_append_self {α : Type} (l : List (String × α)) (k : String) (v : α)
    (hn : l.any (fun kv => kv.1 = k) = false) :
    (l ++ [(k, v)]).lookup k = some v := by
  induction l with
  | nil =>
    rw [List.nil_append]
    exact List.lookup_cons_self
  | cons kv rest ih =>
    obtain ⟨k1, v1⟩ := kv
    have hk : ¬(k1 = k) := by
      intro hh
      simp [hh] at hn
    have hn' : rest.any (fun kv => kv.1 = k) = false := by
      simpa [hk] using hn
    rw [List.cons_append, lookup_cons_ne k k1 v1 _ (fun hh => hk hh.symm)]
    exact ih hn'

theorem lookup_dictSet {α : Type} (l : List (String × α)) (k : String) (v : α) :
    (dictSet l k v).lookup k = some v := by
  unfold dictSet
  split
  · exact lookup_map_set l k v (by assumption)
  · rename_i h
    have hfalse : l.any (fun kv => kv.1 = k) = false := by
      cases hb : l.any (fun kv => kv.1 = k)
      · rfl
      · exact absurd hb h
    exact lookup_append_self l k v hfalse

/-! ## Lemmas about the watcher's line splitting -/

theorem splitLoop_fst_nil_snd (l : List Char) (h : (splitLoop l).1 = []) :
    (splitLoop l).2 = l := by
  induction l with
  | nil => rfl
  | cons c cs ih =>
    by_cases hc : c = '\n'
    · simp [splitLoop, hc] at h
    · rcases h1 : (splitLoop cs).1 with _ | ⟨hd, tl⟩
      · have := ih h1
        simp [splitLoop, hc, h1, this]
      · simp [splitLoop, hc, h1] at h

theorem splitLoop_eq_nil (l : List Char) (h : '\n' ∉ l) : splitLoop l = ([], l) := by
  induction l with
  | nil => rfl
  | cons c cs ih =>
    have hc : ¬(c = '\n') := fun hh => h (by rw [hh]; exact List.mem_cons_self _ _)
    have hcs : '\n' ∉ cs := fun hh => h (List.mem_cons_of_mem _ hh)
    simp [splitLoop, hc, ih hcs]

theorem splitLoop_snd_no_nl (l : List Char) : '\n' ∉ (splitLoop l).2 := by
  induction l with
  | nil => simp [splitLoop]
  | cons c cs ih =>
    by_cases hc : c = '\n'
    · simpa [splitLoop, hc] using ih
    · rcases h1 : (splitLoop cs).1 with _ | ⟨hd, tl⟩
      · simp only [splitLoop, hc, if_false, h1]
        intro hmem
        rcases List.mem_cons.1 hmem with hh | hh
        · exact hc hh.symm
        · exact ih hh
      · simpa [splitLoop, hc, h1] using ih

theorem splitLoop_append (a b : List Char) :
    splitLoop (a ++ b)
      = ((splitLoop a).1 ++ (splitLoop ((splitLoop a).2 ++ b)).1,
         (splitLoop ((splitLoop a).2 ++ b)).2) := by
  induction a with
  | nil => simp [splitLoop]
  | cons c cs ih =>
    by_cases hc : c = '\n'
    · simp [splitLoop, hc, ih]
    · rcases h1 : (splitLoop cs).1 with _ | ⟨hd, tl⟩
      · have h2 := splitLoop_fst_nil_snd cs h1
        simp [splitLoop, hc, h1, h2]
      · simp [splitLoop, hc, h1, ih]

theorem pySplitAll_eq (s : List Char) :
    pySplitAll s = (splitLoop s).1 ++ [(splitLoop s).2] := by
  induction s with
  | nil => rfl
  | cons c cs ih =>
    by_cases hc : c = '\n'
    · simp [pySplitAll, splitLoop, hc, ih]
    · rcases h1 : (splitLoop cs).1 with _ | ⟨hd, tl⟩
      · simp [pySplitAll, splitLoop, hc, h1, ih]
      · simp [pySplitAll, splitLoop, hc, h1, ih]

theorem handleOutput_buf (buf text : List Char) :
    (handleOutput buf text).buf = (splitLoop (buf ++ text)).2 := rfl

theorem handleOutput_completed (buf text : List Char) :
    (handleOutput buf text).completed = (splitLoop (buf ++ text)).1 := rfl

theorem runChunks_spec (chunks : List (List Char)) :
    ∀ buf, (splitLoop buf).1 = [] →
      runChunksBuf buf chunks = (splitLoop (buf ++ sconcat chunks)).2
      ∧ outsCompleted (runChunksOuts buf chunks) = (splitLoop (buf ++ sconcat chunks)).1 := by
  induction chunks with
  | nil =>
    intro buf hbuf
    constructor
    · show buf = (splitLoop (buf ++ sconcat [])).2
      rw [show sconcat [] = [] from rfl, List.append_nil,
        splitLoop_fst_nil_snd buf hbuf]
    · show [] = (splitLoop (buf ++ sconcat [])).1
      rw [show sconcat [] = [] from rfl, List.append_nil, hbuf]
  | cons c cs ih =>
    intro buf hbuf
    have hnl := splitLoop_snd_no_nl (buf ++ c)
    have hb2 : (splitLoop ((splitLoop (buf ++ c)).2)).1 = [] := by
      rw [splitLoop_eq_nil _ hnl]
    have IH := ih ((splitLoop (buf ++ c)).2) hb2
    have hsa := splitLoop_append (buf ++ c) (sconcat cs)
    have hassoc : buf ++ sconcat (c :: cs) = (buf ++ c) ++ sconcat cs := by
      rw [show sconcat (c :: cs) = c ++ sconcat cs from rfl, List.append_assoc]
    constructor
    · show runChunksBuf ((handleOutput buf c).buf) cs = _
      rw [handleOutput_buf, IH.1, hassoc, hsa]
    · show (handleOutput buf c).completed
          ++ outsCompleted (runChunksOuts ((handleOutput buf c).buf) cs) = _
      rw [handleOutput_buf, handleOutput_completed, IH.2, hassoc, hsa]

theorem frag_spec (chunks : List (List Char)) :
    ∀ buf, ∀ o ∈ runChunksOuts buf chunks,
      o.frag = if pyStripL o.buf = [] then none else some o.buf := by
  induction chunks with
  | nil =>
    intro buf o ho
    exact absurd ho (by simp [runChunksOuts])
  | cons c cs ih =>
    intro buf o ho
    rcases List.mem_cons.1 ho with h1 | h1
    · rw [h1]
      rfl
    · exact ih _ o h1

/-! ## Field lemmas used by the ring and timing claims -/

theorem feed_buffer (d : Detector) (now : ℚ) (raw : String)
    (hne : feedClean raw ≠ "") :
    (d.feed_line now raw).state.output_buffer
      = dequePush50 d.state.output_buffer
          (redactLine d.redact_patterns (feedClean raw)) := by
  rcases hm : matchedTool d.registry d.tool_hint (feedClean raw) with _ | k
  · rw [feed_line_unmatched _ _ _ hne hm]
    rfl
  · rw [feed_line_matched _ _ _ _ hne hm,
      (trigger_idle_preserves (d.feedUpd now (feedClean raw)) "pattern" k now).2.2.2.1]
    rfl

theorem feed_last_output (d : Detector) (now : ℚ) (raw : String)
    (hne : feedClean raw ≠ "") :
    (d.feed_line now raw).state.last_output_time = now := by
  rcases hm : matchedTool d.registry d.tool_hint (feedClean raw) with _ | k
  · rw [feed_line_unmatched _ _ _ hne hm]
    rfl
  · rw [feed_line_matched _ _ _ _ hne hm,
      (trigger_idle_preserves (d.feedUpd now (feedClean raw)) "pattern" k now).2.2.2.2]
    rfl

theorem ring_entry_from_feed (d : Detector) (ops : List DetOp) (entry : String)
    (he : entry ∈ (d.run ops).state.output_buffer) :
    entry ∈ d.state.output_buffer
    ∨ ∃ now raw, DetOp.feed now raw ∈ ops ∧ feedClean raw ≠ ""
        ∧ entry = redactLine d.redact_patterns (feedClean raw) := by
  induction ops using List.reverseRecOn with
  | nil => exact Or.inl he
  | append_singleton ops op ih =>
    rw [run_append, run_single] at he
    cases op with
    | checkTimeout now =>
      have hbuf : ((d.run ops).step (DetOp.checkTimeout now)).state.output_buffer
          = (d.run ops).state.output_buffer := by
        rw [Detector.step, Detector.check_timeout]
        split
        · exact (trigger_idle_preserves (d.run ops) _ _ now).2.2.2.1
        · rfl
      rw [hbuf] at he
      rcases ih he with h1 | ⟨now', raw', hmem, hne', hred⟩
      · exact Or.inl h1
      · exact Or.inr ⟨now', raw', List.mem_append_left _ hmem, hne', hred⟩
    | feed now raw =>
      by_cases hcl : feedClean raw = ""
      · rw [Detector.step, feed_line_empty _ _ _ hcl] at he
        rcases ih he with h1 | ⟨now', raw', hmem, hne', hred⟩
        · exact Or.inl h1
        · exact Or.inr ⟨now', raw', List.mem_append_left _ hmem, hne', hred⟩
      · rw [Detector.step, feed_buffer _ _ _ hcl] at he
        have he2 : entry ∈ (d.run ops).state.output_buffer
            ++ [redactLine (d.run ops).redact_patterns (feedClean raw)] :=
          (List.drop_sublist _ _).subset he
        rcases List.mem_append.1 he2 with h1 | h1
        · rcases ih h1 with h2 | ⟨now', raw', hmem, hne', hred⟩
          · exact Or.inl h2
          · exact Or.inr ⟨now', raw', List.mem_append_left _ hmem, hne', hred⟩
        · have hentry : entry = redactLine (d.run ops).redact_patterns (feedClean raw) := by
            simpa using h1
          rw [(run_preserves d ops).2.2] at hentry
          exact Or.inr ⟨now, raw, List.mem_append_right _ (by simp), hcl, hentry⟩

/-! ## Concrete evaluations used by witnesses

Rational arithmetic does not reduce inside the kernel, so the runs that
fire the cooldown gate are evaluated through the step lemmas with
`norm_num` discharging the timing comparisons. -/

theorem c2run_eval : c2det.run [DetOp.feed 10 ">> "]
    = ⟨regCd, none, [], ⟨10, 10, [">>"], true, some "claude_code"⟩,
       [⟨"pattern", "claude_code", 10 - 10, [">>"], 10⟩]⟩ := by
  rw [run_single]
  show c2det.feed_line 10 ">> " = _
  rw [feed_line_matched c2det 10 ">> " "claude_code" (by decide) (by decide),
    trigger_idle_fire _ _ _ _ (by norm_num [c2det, mkDetector, regCd, Detector.feedUpd])]
  rfl

theorem c2run_events : (c2det.run [DetOp.feed 10 ">> "]).events
    = [⟨"pattern", "claude_code", 0, [">>"], 10⟩] := by
  rw [c2run_eval]
  norm_num

theorem c6_eval : (c6det.run c6ops).events.map IdleEvt.method = ["timeout"] := by
  have h1 : c6det.feed_line 10 "Working on it"
      = ⟨regC6, some "claude_code", [],
          ⟨10, 0, ["Working on it"], false, none⟩, []⟩ := by
    rw [feed_line_unmatched _ _ _ (by decide) (by decide)]
    rfl
  have h2 : (⟨regC6, some "claude_code", [],
        ⟨10, 0, ["Working on it"], false, none⟩, []⟩ : Detector).check_timeout 12
      = ⟨regC6, some "claude_code", [],
          ⟨10, 12, ["Working on it"], true, some "claude_code"⟩,
          [⟨"timeout", "claude_code", 12 - 10, ["Working on it"], 12⟩]⟩ := by
    rw [Detector.check_timeout, if_pos (⟨by norm_num [regC6], rfl⟩ :
        (regC6.timeout_seconds ≤ 12 - (10:ℚ) ∧ false = false)),
      trigger_idle_fire _ _ _ _ (by norm_num [regC6])]
    rfl
  have h3 : ∀ now : ℚ, (⟨regC6, some "claude_code", [],
        ⟨10, 12, ["Working on it"], true, some "claude_code"⟩,
        [⟨"timeout", "claude_code", 12 - 10, ["Working on it"], 12⟩]⟩ :
          Detector).check_timeout now
      = ⟨regC6, some "claude_code", [],
          ⟨10, 12, ["Working on it"], true, some "claude_code"⟩,
          [⟨"timeout", "claude_code", 12 - 10, ["Working on it"], 12⟩]⟩ := by
    intro now
    rw [Detector.check_timeout, if_neg]
    intro hcond
    exact absurd hcond.2 (by simp)
  show ((((c6det.feed_line 10 "Working on it").check_timeout 12).check_timeout
      13).check_timeout 14).events.map IdleEvt.method = ["timeout"]
  rw [h1, h2, h3 13, h3 14]
  rfl

/-! ## Claim theorems -/

/-- C8: a single application of the notifier's `_sanitize` is the
composition escape-backslashes, then escape-double-quotes, then
replace-newlines-with-a-visible-glyph; the one-character input `"` maps to
`\"`, the one-character input `\` maps to `\\`, the two-character input
`\"` maps to `\\\"`, newlines become ` ⏎ `, and `_sanitize` is not
idempotent. -/
theorem C8_sanitize (s : String) :
    _sanitize s
      = pyReplace (pyReplace (pyReplace s "\\" "\\\\") "\"" "\\\"") "\n" " ⏎ "
    ∧ _sanitize "\"" = "\\\""
    ∧ _sanitize "\\" = "\\\\"
    ∧ _sanitize "\\\"" = "\\\\\\\""
    ∧ _sanitize "a\nb" = "a ⏎ b"
    ∧ _sanitize (_sanitize "\"") ≠ _sanitize "\"" :=
  ⟨rfl, by decide, by decide, by decide, by decide, by decide⟩

/-- C3 (counterexample): the claim fails as stated.  `strip_ansi` is not
idempotent: on `c3L = ESC ESC [ A [ 0 m`, one strip removes `ESC [ A` and
glues the leading `ESC` to `[0m`, leaving `ESC [ 0 m`, which a second strip
removes entirely.  The literal idle pattern `0m` therefore matches when
`c3L` is fed (cleaned line `ESC [ 0 m`) but not when `ansi_strip(c3L)` is
fed (cleaned line empty), and the matched tool differs accordingly. -/
theorem C3_counterexample :
    strip_ansi c3L = "\x1b[0m"
    ∧ strip_ansi (strip_ansi c3L) = ""
    ∧ (litPattern "0m").search (feedClean c3L) = true
    ∧ (litPattern "0m").search (feedClean (strip_ansi c3L)) = false
    ∧ matchedTool regZeroM none (feedClean c3L) = some "zero_m"
    ∧ matchedTool regZeroM none (feedClean (strip_ansi c3L)) = none := by
  decide

/-- C3 (amended): `feed_line` matches every pattern against
`strip_ansi(raw).strip()` — its outcome depends on the raw line only
through that cleaned form — and whenever `strip_ansi` is idempotent on `L`,
the decision reached on `L` equals the decision reached on `ansi_strip(L)`,
both for an individual pattern and for the matched-tool selection;
stripping once can create a new escape sequence, in which case the
decisions may differ. -/
theorem C3_match_strip (L raw₁ raw₂ : String) (P : String → Bool)
    (reg : PatternRegistry) (hint : Option String) (d : Detector) (now : ℚ)
    (hcl : feedClean raw₁ = feedClean raw₂)
    (hid : strip_ansi (strip_ansi L) = strip_ansi L) :
    d.feed_line now raw₁ = d.feed_line now raw₂
    ∧ P (feedClean L) = P (feedClean (strip_ansi L))
    ∧ matchedTool reg hint (feedClean L)
        = matchedTool reg hint (feedClean (strip_ansi L)) := by
  have hfc : feedClean (strip_ansi L) = feedClean L := by
    unfold feedClean
    rw [hid]
  refine ⟨?_, by rw [hfc], by rw [hfc]⟩
  by_cases hc : feedClean raw₁ = ""
  · rw [feed_line_empty _ _ _ hc, feed_line_empty _ _ _ (by rw [← hcl]; exact hc)]
  · have hc2 : feedClean raw₂ ≠ "" := by
      rw [← hcl]
      exact hc
    rcases hm : matchedTool d.registry d.tool_hint (feedClean raw₁) with _ | k
    · rw [feed_line_unmatched _ _ _ hc hm,
        feed_line_unmatched _ _ _ hc2 (by rw [← hcl]; exact hm), hcl]
    · rw [feed_line_matched _ _ _ _ hc hm,
        feed_line_matched _ _ _ _ hc2 (by rw [← hcl]; exact hm), hcl]

/-- C3 (witness): the instantiated amended claim at `L = "hello world"`
(idempotent under stripping) and at the pair `">> "` vs its ANSI-decorated
form, whose cleaned lines coincide. -/
theorem C3_witness :
    cDet.feed_line 5 ">> " = cDet.feed_line 5 "\x1b[32m>> \x1b[0m"
    ∧ (litPattern "w").search (feedClean "hello world")
        = (litPattern "w").search (feedClean (strip_ansi "hello world"))
    ∧ matchedTool regCd none (feedClean "hello world")
        = matchedTool regCd none (feedClean (strip_ansi "hello world")) :=
  C3_match_strip "hello world" ">> " "\x1b[32m>> \x1b[0m"
    ((litPattern "w").search) regCd none cDet 5 (by decide) (by decide)

/-- C4 (counterexample): the claim fails as stated.  With the valid literal
redaction pattern `ED` (a compiled regex), feeding `"xEDy"` stores
`"x[REDACTED]y"` in the ring — and that same redaction pattern still
matches the stored entry, because the replacement token `[REDACTED]`
itself contains `ED`. -/
theorem C4_counterexample :
    (cd4.feed_line 1 "xEDy").state.output_buffer = ["x[REDACTED]y"]
    ∧ cd4.redact_patterns.any (fun p => p.search "x[REDACTED]y") = true := by
  decide

/-- C4 (amended): every entry of the ring after a run from an empty ring is
the ANSI-stripped, trimmed line of some fed line with every compiled
redaction pattern applied in order (each match replaced by `[REDACTED]`),
and each non-empty feed pushes exactly that redacted cleaned line; a
redaction pattern may nevertheless still match the stored entry when the
replacement text or its juxtaposition with the surroundings re-creates a
match. -/
theorem C4_ring (d₀ : Detector) (ops : List DetOp) (entry : String)
    (d3 : Detector) (now3 : ℚ) (raw3 : String)
    (h0 : d₀.state.output_buffer = [])
    (he : entry ∈ (d₀.run ops).state.output_buffer)
    (hne3 : feedClean raw3 ≠ "") :
    (∃ now raw, DetOp.feed now raw ∈ ops ∧ feedClean raw ≠ ""
      ∧ entry = redactLine d₀.redact_patterns (feedClean raw))
    ∧ (d3.feed_line now3 raw3).state.output_buffer
        = dequePush50 d3.state.output_buffer
            (redactLine d3.redact_patterns (feedClean raw3)) := by
  constructor
  · rcases ring_entry_from_feed d₀ ops entry he with h1 | h1
    · rw [h0] at h1
      exact absurd h1 (by simp)
    · exact h1
  · exact feed_buffer d3 now3 raw3 hne3

/-- C4 (witness): the amended claim instantiated on the `ED` scenario. -/
theorem C4_witness :
    (∃ now raw, DetOp.feed now raw ∈ [DetOp.feed 1 "xEDy"] ∧ feedClean raw ≠ ""
      ∧ "x[REDACTED]y" = redactLine cd4.redact_patterns (feedClean raw))
    ∧ (cd4.feed_line 1 "xEDy").state.output_buffer
        = dequePush50 cd4.state.output_buffer
            (redactLine cd4.redact_patterns (feedClean "xEDy")) :=
  C4_ring cd4 [DetOp.feed 1 "xEDy"] "x[REDACTED]y" cd4 1 "xEDy"
    rfl (by decide) (by decide)

/-- C5: `match_any` iterates the tools in insertion order and returns the
key of the first tool one of whose patterns matches; it returns `none` iff
no pattern of any tool matches (and it is total by construction — the
embedded function is defined on every line); and in `feed_line`'s matching
step, a truthy tool hint that is a registry key is tested first and is the
matched key whenever any of its patterns matches the cleaned line. -/
theorem C5_match_any (r₀ : PatternRegistry) (line₀ : String)
    (r : PatternRegistry) (line k h clean : String) (tool : ToolPattern)
    (hk : r.match_any line = some k)
    (hh : h ≠ "")
    (hlk : r.tools.lookup h = some tool)
    (hmt : tool.matches clean = true) :
    (r₀.match_any line₀ = none ↔ ∀ kt ∈ r₀.tools, kt.2.matches line₀ = false)
    ∧ (∃ pre t post, r.tools = pre ++ (k, t) :: post ∧ t.matches line = true
        ∧ ∀ kt ∈ pre, kt.2.matches line = false)
    ∧ matchedTool r (some h) clean = some h := by
  refine ⟨matchAnyList_none_iff r₀.tools line₀, matchAnyList_some r.tools line k hk, ?_⟩
  unfold matchedTool
  simp [hh, hlk, hmt]

/-- C5 (witness): instantiated on the two-tool registry `reg5`. -/
theorem C5_witness :
    (reg5.match_any "nothing" = none ↔ ∀ kt ∈ reg5.tools, kt.2.matches "nothing" = false)
    ∧ (∃ pre t post, reg5.tools = pre ++ ("b", t) :: post ∧ t.matches "B> done" = true
        ∧ ∀ kt ∈ pre, kt.2.matches "B> done" = false)
    ∧ matchedTool reg5 (some "a") "A> go" = some "a" :=
  C5_match_any reg5 "nothing" reg5 "B> done" "b" "a" "A> go" toolA
    (by decide) (by decide) rfl (by decide)

/-- C10: every idle event fired via the pattern path reports
`idle_seconds = 0`: `feed_line` stamps `last_output_time` with the same
`now` it then passes to `_trigger_idle`, which computes
`idle_seconds = now - last_output_time`; only timeout-path events can
report a positive value. -/
theorem C10_pattern_zero (d₀ : Detector) (ops : List DetOp) (e : IdleEvt)
    (d : Detector) (now : ℚ) (raw : String)
    (h0 : d₀.events = [])
    (he : e ∈ (d₀.run ops).events)
    (hm : e.method = "pattern")
    (hne : feedClean raw ≠ "") :
    e.idle_seconds = 0
    ∧ (d.feed_line now raw).state.last_output_time = now := by
  constructor
  · have hz : PatternZero d₀ := by
      intro e' he' _
      rw [h0] at he'
      exact absurd he' (by simp)
    exact patternzero_run d₀ ops hz e he hm
  · exact feed_last_output d now raw hne

/-- C1: along any call sequence from a fresh detector, successive idle
events are at least `cooldown_seconds` apart — the callback fires at `now`
only if `now - last_idle_notification ≥ cooldown_seconds`, and each firing
sets `last_idle_notification ← now`; a gap of exactly `cooldown_seconds`
permits the next fire while a smaller gap leaves the detector unchanged. -/
theorem C1_cooldown (d₀ : Detector) (ops : List DetOp)
    (d d2 : Detector) (m k m2 k2 : String) (now now2 : ℚ)
    (h0 : d₀.events = [])
    (hfire : d.registry.cooldown_seconds ≤ now - d.state.last_idle_notification)
    (hblock : now2 - d2.state.last_idle_notification < d2.registry.cooldown_seconds) :
    List.Chain' (fun a b : IdleEvt =>
        d₀.registry.cooldown_seconds ≤ b.timestamp - a.timestamp) (d₀.run ops).events
    ∧ (d.trigger_idle m k now).events = d.events
        ++ [⟨m, k, now - d.state.last_output_time,
            lastN 10 d.state.output_buffer, now⟩]
    ∧ (d.trigger_idle m k now).state.last_idle_notification = now
    ∧ d2.trigger_idle m2 k2 now2 = d2 := by
  refine ⟨?_, ?_, ?_, trigger_idle_block d2 m2 k2 now2 hblock⟩
  · have hinv : GapInv d₀.registry.cooldown_seconds d₀ := by
      constructor
      · rw [h0]
        exact List.chain'_nil
      · intro e he
        rw [h0] at he
        simp at he
    exact (gapinv_run _ d₀ ops rfl hinv).1
  · rw [trigger_idle_fire _ _ _ _ hfire]
  · rw [trigger_idle_fire _ _ _ _ hfire]

/-- C1 (witness): a run with two pattern fires 10 apart under cooldown 5,
a trigger at a gap of exactly the cooldown, and a blocked trigger at a
smaller gap. -/
theorem C1_witness :
    List.Chain' (fun a b : IdleEvt =>
        c2det.registry.cooldown_seconds ≤ b.timestamp - a.timestamp)
      (c2det.run [DetOp.feed 10 ">> ", DetOp.feed 20 ">> "]).events
    ∧ (cDet.trigger_idle "pattern" "claude_code" 5).events = cDet.events
        ++ [⟨"pattern", "claude_code", 5 - cDet.state.last_output_time,
            lastN 10 cDet.state.output_buffer, 5⟩]
    ∧ (cDet.trigger_idle "pattern" "claude_code" 5).state.last_idle_notification = 5
    ∧ idleDet.trigger_idle "timeout" "unknown" 3 = idleDet :=
  C1_cooldown c2det [DetOp.feed 10 ">> ", DetOp.feed 20 ">> "]
    cDet idleDet "pattern" "claude_code" "timeout" "unknown" 5 3
    rfl (by norm_num [cDet, mkDetector, regCd])
    (by norm_num [idleDet, regCd])

/-- C2 (counterexample): the claim fails as stated.  A final non-empty feed
whose cleaned line matches an idle pattern fires the trigger after
resetting `is_idle`, so the run ends with `is_idle = true`. -/
theorem C2_counterexample :
    feedClean ">> " ≠ ""
    ∧ (c2det.run [DetOp.feed 10 ">> "]).state.is_idle = true := by
  refine ⟨by decide, ?_⟩
  rw [c2run_eval]

/-- C2 (amended): after a sequence ending with a non-empty feed that does
not itself emit an idle event, `is_idle` is false; and along any sequence
from a detector that starts non-idle, `is_idle` is true iff some call
emitted an idle event and no later call fed a non-empty line (a feed that
itself fires ends with `is_idle = true`, the emission following the line's
arrival inside the same call). -/
theorem C2_is_idle (d₀ : Detector) (ops qs : List DetOp) (now : ℚ) (raw : String)
    (h0 : d₀.state.is_idle = false)
    (hne : feedClean raw ≠ "")
    (hnofire : ((d₀.run ops).feed_line now raw).events.length
        = (d₀.run ops).events.length) :
    (d₀.run (ops ++ [DetOp.feed now raw])).state.is_idle = false
    ∧ ((d₀.run qs).state.is_idle = true ↔ FiredSuffix d₀ qs) := by
  constructor
  · rw [run_append, run_single]
    exact feed_nofire_idle (d₀.run ops) now raw hne hnofire
  · exact idle_iff d₀ h0 qs

/-- C2 (witness): the amended claim at a fire followed by a non-matching
feed, and the iff on the one-fire trace. -/
theorem C2_witness :
    (c2det.run ([DetOp.feed 10 ">> "] ++ [DetOp.feed 20 "hello one"])).state.is_idle
      = false
    ∧ ((c2det.run [DetOp.feed 10 ">> "]).state.is_idle = true
        ↔ FiredSuffix c2det [DetOp.feed 10 ">> "]) :=
  C2_is_idle c2det [DetOp.feed 10 ">> "] [DetOp.feed 10 ">> "] 20 "hello one"
    rfl (by decide)
    (by
      have hreg := run_preserves c2det [DetOp.feed 10 ">> "]
      have hm : matchedTool (c2det.run [DetOp.feed 10 ">> "]).registry
          (c2det.run [DetOp.feed 10 ">> "]).tool_hint (feedClean "hello one")
          = none := by
        rw [hreg.1, hreg.2.1]
        decide
      rw [feed_line_unmatched _ _ _ (by decide) hm]
      rfl)

/-- C6: `check_timeout` invokes the cooldown-gated trigger with method
`"timeout"` and tool key the hint-or-`"unknown"` exactly when
`now - last_output_time ≥ timeout_seconds` and `is_idle` is false; under
those conditions with the cooldown passed the timeout event is appended —
an elapsed time of exactly `timeout_seconds` qualifies — while a smaller
elapsed time, or an already-idle detector, leaves the state unchanged; in
the spec's scenario (timeout 1, cooldown 0, one feed, three `check_timeout`
calls after 2 seconds of silence) exactly one `"timeout"` event fires. -/
theorem C6_check_timeout (d d2 d3 : Detector) (now now2 now3 : ℚ)
    (hts : d.registry.timeout_seconds ≤ now - d.state.last_output_time)
    (hidle : d.state.is_idle = false)
    (hcd : d.registry.cooldown_seconds ≤ now - d.state.last_idle_notification)
    (h2 : now2 - d2.state.last_output_time < d2.registry.timeout_seconds)
    (h3 : d3.state.is_idle = true) :
    d.check_timeout now = d.trigger_idle "timeout" (hintOr d.tool_hint) now
    ∧ (d.check_timeout now).events = d.events
        ++ [⟨"timeout", hintOr d.tool_hint, now - d.state.last_output_time,
            lastN 10 d.state.output_buffer, now⟩]
    ∧ d2.check_timeout now2 = d2
    ∧ d3.check_timeout now3 = d3
    ∧ (c6det.run c6ops).events.map IdleEvt.method = ["timeout"] := by
  refine ⟨?_, ?_, ?_, ?_, c6_eval⟩
  · rw [Detector.check_timeout, if_pos ⟨hts, hidle⟩]
  · rw [Detector.check_timeout, if_pos ⟨hts, hidle⟩, trigger_idle_fire _ _ _ _ hcd]
  · have hnc : ¬(d2.registry.timeout_seconds ≤ now2 - d2.state.last_output_time
        ∧ d2.state.is_idle = false) := fun hcond => absurd hcond.1 (not_le.2 h2)
    rw [Detector.check_timeout, if_neg hnc]
  · have hnc : ¬(d3.registry.timeout_seconds ≤ now3 - d3.state.last_output_time
        ∧ d3.state.is_idle = false) := by
      intro hcond
      rw [h3] at hcond
      exact absurd hcond.2 (by simp)
    rw [Detector.check_timeout, if_neg hnc]

/-- C6 (witness): `cDet` checked at exactly `timeout_seconds` after its last
output fires; strictly earlier does not; an already-idle detector does
not. -/
theorem C6_witness :
    cDet.check_timeout 30 = cDet.trigger_idle "timeout" (hintOr cDet.tool_hint) 30
    ∧ (cDet.check_timeout 30).events = cDet.events
        ++ [⟨"timeout", hintOr cDet.tool_hint, 30 - cDet.state.last_output_time,
            lastN 10 cDet.state.output_buffer, 30⟩]
    ∧ cDet.check_timeout 10 = cDet
    ∧ idleDet.check_timeout 50 = idleDet
    ∧ (c6det.run c6ops).events.map IdleEvt.method = ["timeout"] :=
  C6_check_timeout cDet cDet idleDet 30 10 50
    (by norm_num [cDet, mkDetector, regCd])
    rfl
    (by norm_num [cDet, mkDetector, regCd])
    (by norm_num [cDet, mkDetector, regCd])
    rfl

/-- C7: for any chunking of a character stream delivered to the watcher's
output handler from an empty line buffer, the completed lines fed to the
detector are exactly the newline-terminated segments of the concatenated
stream, in order; the buffer afterwards is the remainder after the last
newline; each chunk additionally feeds the buffer remainder iff its
trimmed form is non-empty, without removing it from the buffer; and
`S.split("\n")` is those segments plus the remainder, so the completed
feeds equal `S.split("\n")` minus its unterminated last element — the
claim's "modulo possibly repeated trailing-fragment feeds". -/
theorem C7_chunking (chunks : List (List Char)) (s : List Char) :
    runChunksBuf [] chunks = (splitLoop (sconcat chunks)).2
    ∧ outsCompleted (runChunksOuts [] chunks) = (splitLoop (sconcat chunks)).1
    ∧ (∀ o ∈ runChunksOuts [] chunks,
        o.frag = if pyStripL o.buf = [] then none else some o.buf)
    ∧ pySplitAll s = (splitLoop s).1 ++ [(splitLoop s).2]
    ∧ outsCompleted (runChunksOuts [] chunks)
        = (pySplitAll (sconcat chunks)).dropLast := by
  have hspec := runChunks_spec chunks [] rfl
  refine ⟨by simpa using hspec.1, by simpa using hspec.2,
    frag_spec chunks [], pySplitAll_eq s, ?_⟩
  rw [pySplitAll_eq (sconcat chunks), List.dropLast_concat]
  simpa using hspec.2

/-- C9 (counterexample): the claim fails as stated at `limit = 0`: the last
0 history entries are `[]`, but the endpoint evaluates the Python slice
`history[-0:] = history[0:]` and returns the whole history. -/
theorem C9_counterexample :
    list_events c9st0 0 = [c9ev]
    ∧ lastN 0 c9st0.event_history = []
    ∧ list_events c9st0 0 ≠ lastN 0 c9st0.event_history := by
  decide

/-- C9 (amended): the history never exceeds 100 entries — at exactly 100
the oldest is evicted, below 100 the event is appended; the posted session
record is stored under the session id with status `"idle"` and the event as
`last_event`; the response is `("ok", clients_notified)`; for `N ≥ 1`,
`GET /api/events?limit=N` returns a suffix of the history of length
`min N (length history)` — the last `N` entries in arrival order — with
`N = 20` the default; `N = 0` instead returns the whole history. -/
theorem C9_events (st st2 st3 : HubState) (e : IdleEventRequest) (ts : ℚ)
    (n : Nat) (N : Int)
    (hlen : st.event_history.length ≤ 100)
    (h2 : st2.event_history.length = 100)
    (h3 : st3.event_history.length < 100)
    (hN : 0 < N) :
    (receive_event st e ts n).1.event_history.length ≤ 100
    ∧ (receive_event st2 e ts n).1.event_history
        = st2.event_history.drop 1 ++ [mkEventData e ts]
    ∧ (receive_event st3 e ts n).1.event_history
        = st3.event_history ++ [mkEventData e ts]
    ∧ ((receive_event st e ts n).1.sessions).lookup e.session_id
        = some ⟨e.session_id, e.tool_name, e.working_dir, "idle",
            some (mkEventData e ts)⟩
    ∧ (receive_event st e ts n).2 = ("ok", n)
    ∧ (∃ pre, pre ++ list_events st N = st.event_history)
    ∧ (list_events st N).length = min N.toNat st.event_history.length
    ∧ list_events_default st = list_events st 20 := by
  refine ⟨?_, ?_, ?_, ?_, rfl, ?_, ?_, rfl⟩
  · show (if MAX_HISTORY < (st.event_history ++ [mkEventData e ts]).length
        then (st.event_history ++ [mkEventData e ts]).drop 1
        else st.event_history ++ [mkEventData e ts]).length ≤ 100
    split <;> rename_i hsp <;>
      simp only [MAX_HISTORY, List.length_drop, List.length_append,
        List.length_cons, List.length_nil] at hsp ⊢ <;>
      omega
  · show (if MAX_HISTORY < (st2.event_history ++ [mkEventData e ts]).length
        then (st2.event_history ++ [mkEventData e ts]).drop 1
        else st2.event_history ++ [mkEventData e ts])
      = st2.event_history.drop 1 ++ [mkEventData e ts]
    rw [if_pos (by simp [MAX_HISTORY, h2]),
      List.drop_append_of_le_length (by rw [h2]; omega)]
  · show (if MAX_HISTORY < (st3.event_history ++ [mkEventData e ts]).length
        then (st3.event_history ++ [mkEventData e ts]).drop 1
        else st3.event_history ++ [mkEventData e ts])
      = st3.event_history ++ [mkEventData e ts]
    rw [if_neg (by simp [MAX_HISTORY]; omega)]
  · show (dictSet st.sessions e.session_id
        ⟨e.session_id, e.tool_name, e.working_dir, "idle",
          some (mkEventData e ts)⟩).lookup e.session_id = _
    exact lookup_dictSet _ _ _
  · show ∃ pre, pre ++ pyTail st.event_history N = st.event_history
    rw [pyTail, if_pos hN]
    exact ⟨st.event_history.take (st.event_history.length - N.toNat),
      List.take_append_drop _ _⟩
  · show (pyTail st.event_history N).length = min N.toNat st.event_history.length
    rw [pyTail, if_pos hN, List.length_drop]
    omega

/-- C9 (witness): instantiated at a one-event history, an exactly-full
history, an empty history, and `N = 3`. -/
theorem C9_witness :
    (receive_event c9st0 c9req 4 7).1.event_history.length ≤ 100
    ∧ (receive_event c9full c9req 4 7).1.event_history
        = c9full.event_history.drop 1 ++ [mkEventData c9req 4]
    ∧ (receive_event c9empty c9req 4 7).1.event_history
        = c9empty.event_history ++ [mkEventData c9req 4]
    ∧ ((receive_event c9st0 c9req 4 7).1.sessions).lookup c9req.session_id
        = some ⟨c9req.session_id, c9req.tool_name, c9req.working_dir, "idle",
            some (mkEventData c9req 4)⟩
    ∧ (receive_event c9st0 c9req 4 7).2 = ("ok", 7)
    ∧ (∃ pre, pre ++ list_events c9st0 3 = c9st0.event_history)
    ∧ (list_events c9st0 3).length = min (3 : Int).toNat c9st0.event_history.length
    ∧ list_events_default c9st0 = list_events c9st0 20 :=
  C9_events c9st0 c9full c9empty c9req 4 7 3
    (by decide) (by simp [c9full]) (by decide) (by decide)

/-- C10 (witness): a concrete pattern-path event of a concrete run. -/
theorem C10_witness :
    (⟨"pattern", "claude_code", 0, [">>"], 10⟩ : IdleEvt).idle_seconds = 0
    ∧ (c2det.feed_line 10 ">> ").state.last_output_time = 10 :=
  C10_pattern_zero c2det [DetOp.feed 10 ">> "]
    ⟨"pattern", "claude_code", 0, [">>"], 10⟩ c2det 10 ">> "
    rfl
    (by
      rw [c2run_events]
      exact List.mem_singleton.mpr rfl)
    rfl (by decide)

end Jigai
